import Mathlib

set_option maxHeartbeats 1600000
set_option maxRecDepth 8000

/-!
Verification development for the bookshelf relational-mapping and eager-loading
core (src/lib/collection.js: the Collection and Model classes).

The relation methods, the fetch/save pipelines and the morphTo candidate
normalization are embedded from src/lib/collection.js.  The key-naming
resolution (lib/relation.js), the eager-load planner (lib/eager.js) and
parsePivot are code of this repository that is not under src/; those parts are
modelled from the specification, and every such definition is marked
accordingly in its doc comment.
-/

/-- A scalar database value as returned by the store collaborator. -/
inductive DbValue where
  | str : String → DbValue
  | num : Int → DbValue
  | null : DbValue
deriving DecidableEq, Repr

/-- A raw row: a flat mapping of column name to scalar value, as the spec
requires of the store collaborator. -/
abbrev DbRow := List (String × DbValue)

/-- The external store: table name to rows. -/
abbrev DbStore := List (String × List DbRow)

/-- Read one column of a row. -/
def getAttr (r : DbRow) (k : String) : Option DbValue :=
  (r.find? (fun kv => kv.fst = k)).map (fun kv => kv.snd)

/-- All rows of one table of the store. -/
def tableRows (store : DbStore) (t : String) : List DbRow :=
  ((store.find? (fun e => e.fst = t)).map (fun e => e.snd)).getD []

/-- The values a list of rows holds in one column (rows lacking the column are
skipped). -/
def keyVals (rows : List DbRow) (col : String) : List DbValue :=
  rows.filterMap (fun r => getAttr r col)

/-- The seven relation kinds of the model layer (Model#hasOne, Model#hasMany,
Model#belongsTo, Model#belongsToMany, Model#morphOne, Model#morphMany,
Model#morphTo in src/lib/collection.js). -/
inductive RelKind where
  | hasOne
  | hasMany
  | belongsTo
  | belongsToMany
  | morphOne
  | morphMany
  | morphTo
deriving DecidableEq, Repr

/-- Whether the kind is one of the polymorphic variants. -/
def RelKind.isMorph : RelKind → Bool
  | .morphOne => true
  | .morphMany => true
  | .morphTo => true
  | _ => false

/-- Whether the relation produces a RecordSet (`hasMany`, `belongsToMany`,
`morphMany`) rather than a single nullable Record. -/
def RelKind.returnsMany : RelKind → Bool
  | .hasMany => true
  | .belongsToMany => true
  | .morphMany => true
  | _ => false

/-- A relation declaration: the kind plus the optional explicit key arguments of
the relation methods of src/lib/collection.js (lines 574-760 and 805-918).
The target record type is referenced by its registered name, as the source
allows, so that mutually referring record types need no cyclic structure. -/
structure RelDecl where
  kind : RelKind
  targetName : String := ""
  foreignKey : Option String := none
  otherKey : Option String := none
  joinTableName : Option String := none
  foreignKeyTarget : Option String := none
  otherKeyTarget : Option String := none
  morphName : Option String := none
  columnNames : Option (String × String) := none
  morphValue : Option String := none
  candidates : List (String × String) := []
  hasThroughInterim : Bool := false
deriving DecidableEq, Repr

/-- A record type: table name, identity attribute (default id) and its named
relation methods. -/
structure TypeInfo where
  tableName : String
  idAttribute : String := "id"
  relations : List (String × RelDecl) := []
deriving DecidableEq, Repr

/-- The record-type registry mapping a stable name to a type. -/
abbrev Registry := List (String × TypeInfo)

/-- Resolve a registered record-type name. -/
def lookupType (reg : Registry) (n : String) : Option TypeInfo :=
  (reg.find? (fun e => e.fst = n)).map (fun e => e.snd)

/-- Look up a relation method by name on a record type. -/
def lookupRel (ty : TypeInfo) (nm : String) : Option RelDecl :=
  (ty.relations.find? (fun e => e.fst = nm)).map (fun e => e.snd)

/-- Modelled from the spec: the singular form of a table name used by the
key-naming conventions (the inflection helper used by lib/relation.js, which is
not under src/). -/
def singularize (s : String) : String :=
  match s.data.getLast? with
  | some c => if c = 's' then String.mk s.data.dropLast else s
  | none => s

/-- Modelled from the spec: an isJoined descriptor is a belongsToMany or any
through-modified kind, signalling pivot columns requiring extraction
(lib/relation.js is not under src/). -/
def RelDecl.isJoined (rel : RelDecl) : Bool :=
  (rel.kind == RelKind.belongsToMany) || rel.hasThroughInterim

/-- The convention-derived key: singular table name, underscore, identity
attribute. -/
def conventionalKey (tbl idAttr : String) : String :=
  singularize tbl ++ "_" ++ idAttr

/-- Modelled from the spec: the resolved polymorphic type column, defaulting to
morphName followed by the type suffix (lib/relation.js is not under src/). -/
def resolvedTypeColumn (rel : RelDecl) : String :=
  match rel.columnNames with
  | some cn => cn.fst
  | none => rel.morphName.getD "" ++ "_type"

/-- Modelled from the spec: the resolved polymorphic id column, defaulting to
morphName followed by the id suffix (lib/relation.js is not under src/). -/
def resolvedIdColumn (rel : RelDecl) : String :=
  match rel.columnNames with
  | some cn => cn.snd
  | none => rel.morphName.getD "" ++ "_id"

/-- The table owning the identity the foreign key references: the target type
for belongsTo (src/lib/collection.js lines 645-648), the declaring type
otherwise (lines 564-566 and 603-605). -/
def ownerTableName (rel : RelDecl) (parentTy targetTy : TypeInfo) : String :=
  if rel.kind == RelKind.belongsTo then targetTy.tableName else parentTy.tableName

/-- The identity attribute paired with ownerTableName. -/
def ownerIdAttribute (rel : RelDecl) (parentTy targetTy : TypeInfo) : String :=
  if rel.kind == RelKind.belongsTo then targetTy.idAttribute else parentTy.idAttribute

/-- Modelled from the spec: lazy key resolution of lib/relation.js (not under
src/).  An explicit foreignKey wins; morph kinds use their id column; all other
kinds use the convention singularize(ownerTable) plus underscore plus the
identity attribute, as the doc comments of the relation methods in
src/lib/collection.js state. -/
def resolvedForeignKey (rel : RelDecl) (parentTy targetTy : TypeInfo) : String :=
  match rel.foreignKey with
  | some fk => fk
  | none =>
    if rel.kind.isMorph then resolvedIdColumn rel
    else conventionalKey (ownerTableName rel parentTy targetTy) (ownerIdAttribute rel parentTy targetTy)

/-- Modelled from the spec: the belongsToMany otherKey mirrors the foreign-key
convention for the opposite (target) side (src/lib/collection.js lines
737-740). -/
def resolvedOtherKey (rel : RelDecl) (targetTy : TypeInfo) : String :=
  match rel.otherKey with
  | some k => k
  | none => conventionalKey targetTy.tableName targetTy.idAttribute

/-- The default join-table name: the two table names sorted lexicographically
and joined by an underscore (src/lib/collection.js lines 664-667 and 731-733;
the computation itself lives in lib/relation.js, modelled from the spec). -/
def joinTableDefault (a b : String) : String :=
  if a ≤ b then a ++ "_" ++ b else b ++ "_" ++ a

/-- Modelled from the spec: resolved join-table name of a belongsToMany, an
explicit name winning over the sorted default (lib/relation.js is not under
src/). -/
def resolvedJoinTableName (rel : RelDecl) (parentTy targetTy : TypeInfo) : String :=
  match rel.joinTableName with
  | some t => t
  | none => joinTableDefault parentTy.tableName targetTy.tableName

/-- Embeds Model#hasOne (src/lib/collection.js lines 574-579). -/
def hasOne (target : String) (foreignKey foreignKeyTarget : Option String) : RelDecl :=
  { kind := RelKind.hasOne, targetName := target, foreignKey := foreignKey,
    foreignKeyTarget := foreignKeyTarget }

/-- Embeds Model#hasMany (src/lib/collection.js lines 611-616). -/
def hasMany (target : String) (foreignKey foreignKeyTarget : Option String) : RelDecl :=
  { kind := RelKind.hasMany, targetName := target, foreignKey := foreignKey,
    foreignKeyTarget := foreignKeyTarget }

/-- Embeds Model#belongsTo (src/lib/collection.js lines 656-661). -/
def belongsTo (target : String) (foreignKey foreignKeyTarget : Option String) : RelDecl :=
  { kind := RelKind.belongsTo, targetName := target, foreignKey := foreignKey,
    foreignKeyTarget := foreignKeyTarget }

/-- Embeds Model#belongsToMany (src/lib/collection.js lines 752-760). -/
def belongsToMany (target : String)
    (joinTableName foreignKey otherKey foreignKeyTarget otherKeyTarget : Option String) : RelDecl :=
  { kind := RelKind.belongsToMany, targetName := target, joinTableName := joinTableName,
    foreignKey := foreignKey, otherKey := otherKey, foreignKeyTarget := foreignKeyTarget,
    otherKeyTarget := otherKeyTarget }

/-- Embeds Model#morphOne via Model#_morphOneOrMany (src/lib/collection.js
lines 805-807 and 1875-1888), with the columnNames and morphValue arguments
already separated. -/
def morphOne (target morphName : String) (columnNames : Option (String × String))
    (morphValue : Option String) : RelDecl :=
  { kind := RelKind.morphOne, targetName := target, morphName := some morphName,
    columnNames := columnNames, morphValue := morphValue }

/-- Embeds Model#morphMany via Model#_morphOneOrMany (src/lib/collection.js
lines 853-855 and 1875-1888). -/
def morphMany (target morphName : String) (columnNames : Option (String × String))
    (morphValue : Option String) : RelDecl :=
  { kind := RelKind.morphMany, targetName := target, morphName := some morphName,
    columnNames := columnNames, morphValue := morphValue }

/-- A morphTo candidate argument: a bare target, or a target with an explicit
morphValue (src/lib/collection.js lines 859-915 accept both shapes).  The
String component is the registered name of the target type. -/
inductive MorphCandidateArg where
  | plain : String → TypeInfo → MorphCandidateArg
  | withValue : String → TypeInfo → String → MorphCandidateArg
deriving DecidableEq, Repr

/-- Embeds the candidate normalization of Model#morphTo (src/lib/collection.js
lines 910-915): a candidate without an explicit morphValue defaults it to the
target type's tableName. -/
def normalizeCandidate : MorphCandidateArg → String × String
  | .plain n t => (n, t.tableName)
  | .withValue n _ v => (n, v)

/-- Normalize a whole morphTo candidate list (src/lib/collection.js lines
910-915). -/
def normalizeCandidates (l : List MorphCandidateArg) : List (String × String) :=
  l.map normalizeCandidate

/-- Embeds Model#morphTo (src/lib/collection.js lines 899-918): kind morphTo,
the morph name, optional explicit column names, and the normalized candidate
list. -/
def morphTo (morphName : String) (columnNames : Option (String × String))
    (candidateArgs : List MorphCandidateArg) : RelDecl :=
  { kind := RelKind.morphTo, morphName := some morphName, columnNames := columnNames,
    candidates := normalizeCandidates candidateArgs }

/-! Fetch pipeline (Collection#fetch, Model#_doFetch) and the save response
branch (Model#save). -/

/-- The observable steps of one fetch call, used to state that result errors
are raised only after the query has executed. -/
inductive FetchStep where
  | queryExecuted
  | errorRaised
  | resultReturned
deriving DecidableEq, Repr

/-- The result-class fetch errors: Collection.EmptyError raised by
Collection#fetch and Model.NotFoundError raised by Model#_doFetch. -/
inductive FetchErr where
  | emptyError
  | notFoundError
deriving DecidableEq, Repr

/-- Embeds Collection#fetch (src/lib/collection.js lines 128-178): the select
query has already run and produced the response rows; an empty response throws
Collection.EmptyError, which the trailing catch rethrows when the require
option is truthy and otherwise suppresses, resetting the collection to an empty
set.  The require option is an Option Bool so that an unset option is
distinguishable from an explicit false. -/
def collectionFetch (response : List DbRow) (require : Option Bool) :
    Except FetchErr (List DbRow) :=
  if response.isEmpty then
    if require = some true then Except.error FetchErr.emptyError else Except.ok []
  else Except.ok response

/-- The step trace of Collection#fetch: the select executes first and the
EmptyError escapes the call only afterwards, and only under require. -/
def collectionFetchTrace (response : List DbRow) (require : Option Bool) : List FetchStep :=
  FetchStep.queryExecuted ::
    (if response.isEmpty ∧ require = some true then [FetchStep.errorRaised]
     else [FetchStep.resultReturned])

/-- Embeds Model#_doFetch (src/lib/collection.js lines 1163-1219): the first
query has already run; an empty response throws Model.NotFoundError, rethrown
under require and otherwise converted to a null result; a non-empty response
hydrates the model from its first row. -/
def modelDoFetch (response : List DbRow) (require : Option Bool) :
    Except FetchErr (Option DbRow) :=
  if response.isEmpty then
    if require = some true then Except.error FetchErr.notFoundError else Except.ok none
  else Except.ok response.head?

/-- The step trace of Model#_doFetch, mirroring collectionFetchTrace. -/
def modelDoFetchTrace (response : List DbRow) (require : Option Bool) : List FetchStep :=
  FetchStep.queryExecuted ::
    (if response.isEmpty ∧ require = some true then [FetchStep.errorRaised]
     else [FetchStep.resultReturned])

/-- The fetch options recognized by the pipeline; withRelated is an Option so
that a supplied (possibly empty) relation list is distinguishable from an
absent one, exactly as a truthiness test on the option sees it. -/
structure FetchOptions where
  require : Option Bool := none
  columns : Option (List String) := none
  withRelated : Option (List String) := none
  transacting : Bool := false
  lock : Option String := none
deriving DecidableEq, Repr

/-- Embeds the lodash omit of the columns key applied before handing options to
the eager loader (src/lib/collection.js lines 149-153 and 1186-1190). -/
def omitColumns (o : FetchOptions) : FetchOptions :=
  { o with columns := none }

/-- Embeds the withRelated tap of Collection#fetch (src/lib/collection.js lines
149-153) and of Model#_doFetch (lines 1186-1190): when withRelated was
supplied, the eager loader is invoked with the options minus the columns key;
otherwise it is not invoked at all. -/
def eagerCallOptions (o : FetchOptions) : Option FetchOptions :=
  match o.withRelated with
  | none => none
  | some _ => some (omitColumns o)

/-- The save method chosen for Model#save. -/
inductive SaveMethod where
  | insert
  | update
deriving DecidableEq, Repr

/-- The response of the store to a save query: generated ids for an insert,
affected row count for an update. -/
inductive SyncResp where
  | insertIds : List DbValue → SyncResp
  | affected : Nat → SyncResp
deriving DecidableEq, Repr

/-- The error Model#save raises when an update touches no rows. -/
inductive SaveErr where
  | noRowsUpdated
deriving DecidableEq, Repr

/-- The first generated id of a save response (resp zero of the source). -/
def respFirstId : SyncResp → Option DbValue
  | .insertIds ids => ids.head?
  | .affected _ => none

/-- Embeds the post-query branch of Model#save (src/lib/collection.js lines
1580-1591): after an insert on a model without an id, the id is taken from the
response; after an update affecting zero rows, Model.NoRowsUpdatedError is
thrown unless the require option is exactly false.  Returns the model id after
the save. -/
def saveHandleResponse (method : SaveMethod) (modelId : Option DbValue)
    (resp : SyncResp) (require : Option Bool) : Except SaveErr (Option DbValue) :=
  if method = SaveMethod.insert ∧ modelId = none then Except.ok (respFirstId resp)
  else if method = SaveMethod.update ∧ resp = SyncResp.affected 0 then
    if require ≠ some false then Except.error SaveErr.noRowsUpdated
    else Except.ok modelId
  else Except.ok modelId

/-! Pivot extraction. -/

/-- The column marker of pivot attributes in joined rows. -/
def pivotColMark : String := "_pivot_"

/-- Whether a column name carries the pivot marker. -/
def isPivotCol (k : String) : Bool := k.startsWith pivotColMark

/-- A record as seen by parsePivot: its flat attributes plus an optional
already-extracted Pivot sub-record. -/
structure PivotRecord where
  attrs : DbRow
  pivot : Option DbRow := none
deriving DecidableEq, Repr

/-- Modelled from the spec: parsePivot splits one record's attributes into base
attributes and pivot attributes recognized by their column marker, producing a
Pivot sub-record when any pivot attributes are present and leaving the existing
sub-record alone otherwise (lib/relation.js is not under src/). -/
def parsePivotOne (m : PivotRecord) : PivotRecord :=
  let pivotAttrs :=
    (m.attrs.filter (fun kv => isPivotCol kv.fst)).map
      (fun kv => (kv.fst.drop pivotColMark.length, kv.snd))
  let baseAttrs := m.attrs.filter (fun kv => !isPivotCol kv.fst)
  { attrs := baseAttrs,
    pivot := if pivotAttrs.isEmpty then m.pivot else some pivotAttrs }

/-- Modelled from the spec: parsePivot over a record set of an isJoined
descriptor, as invoked by Collection#_handleResponse (src/lib/collection.js
lines 437-439) and Model#_handleResponse (lines 1910-1912), which call it only
when the related data isJoined. -/
def parsePivot (rel : RelDecl) (ms : List PivotRecord) : List PivotRecord :=
  if rel.isJoined then ms.map parsePivotOne else ms

/-! Eager-load planner.  lib/eager.js is not under src/; the planner below is
modelled from the specification (section 4.3): parse the dotted relation-name
list into a one-level tree, validate every name before any query, then per
branch issue one batched query covering all parents jointly, attach a defined
slot to every parent, and recurse into nested names with the fetched children
as the new parent set. -/

/-- One store query issued by the eager loader: the table it targets, the
owner-key values its IN clause covers, and the column selection it was
handed. -/
structure QLog where
  table : String
  keys : List DbValue
  cols : Option (List String)
deriving DecidableEq, Repr

/-- The errors of the eager loader. -/
inductive EagerErr where
  | unknownRelation
  | configuration
  | outOfFuel
deriving DecidableEq, Repr

mutual
/-- An eagerly-loaded record: its row attributes plus one slot per requested
relation name. -/
inductive ARow where
  | mk : DbRow → List (String × Slot) → ARow
/-- The value attached under one relation name: a RecordSet for the many kinds,
a nullable Record for the single kinds. -/
inductive Slot where
  | many : List ARow → Slot
  | one : Option ARow → Slot
end

/-- The attributes of an eagerly-loaded record. -/
def ARow.attrs : ARow → DbRow
  | .mk a _ => a

/-- The relation slots of an eagerly-loaded record. -/
def ARow.related : ARow → List (String × Slot)
  | .mk _ r => r

/-- Look up the slot attached under a relation name. -/
def lookupSlot (ar : ARow) (nm : String) : Option Slot :=
  (ar.related.find? (fun e => e.fst = nm)).map (fun e => e.snd)

/-- Remove duplicates from a list (keeping the last occurrence of each
element). -/
def dedup {α : Type} [DecidableEq α] : List α → List α
  | [] => []
  | x :: xs => if x ∈ dedup xs then dedup xs else x :: dedup xs

/-- Split a character list at the dots, accumulating the current segment in
reverse. -/
def splitDotsAux : List Char → List Char → List String
  | [], acc => [String.mk acc.reverse]
  | c :: cs, acc =>
    if c = '.' then String.mk acc.reverse :: splitDotsAux cs []
    else splitDotsAux cs (c :: acc)

/-- Split a dotted relation name into its segments. -/
def splitDots (s : String) : List String := splitDotsAux s.data []

/-- Split each requested relation name at the dots. -/
def pathsOf (names : List String) : List (List String) :=
  names.map splitDots

/-- The distinct top-level relation names of a path list. -/
def headsOf (paths : List (List String)) : List String :=
  dedup (paths.filterMap List.head?)

/-- The nested name paths scoped to one top-level branch, with the leading
segment stripped. -/
def restsFor (paths : List (List String)) (h : String) : List (List String) :=
  paths.filterMap (fun p =>
    match p with
    | [] => none
    | x :: t => if x = h ∧ t ≠ [] then some t else none)

/-- The parent-side column whose values constrain a relation query. -/
def parentKeyCol (rel : RelDecl) (parentTy targetTy : TypeInfo) : String :=
  match rel.kind with
  | RelKind.belongsTo => resolvedForeignKey rel parentTy targetTy
  | RelKind.morphTo => resolvedIdColumn rel
  | RelKind.morphOne => parentTy.idAttribute
  | RelKind.morphMany => parentTy.idAttribute
  | _ => rel.foreignKeyTarget.getD parentTy.idAttribute

/-- The column of a fetched child row that is grouped against the parent
key. -/
def childKeyCol (rel : RelDecl) (parentTy targetTy : TypeInfo) : String :=
  match rel.kind with
  | RelKind.belongsTo => rel.foreignKeyTarget.getD targetTy.idAttribute
  | RelKind.morphOne => resolvedIdColumn rel
  | RelKind.morphMany => resolvedIdColumn rel
  | RelKind.belongsToMany => pivotColMark ++ resolvedForeignKey rel parentTy targetTy
  | RelKind.morphTo => targetTy.idAttribute
  | _ => resolvedForeignKey rel parentTy targetTy

/-- The morphValue a morphOne or morphMany stores and filters on, defaulting to
the target's tableName (src/lib/collection.js lines 800-802). -/
def morphValueOf (rel : RelDecl) (targetTy : TypeInfo) : String :=
  rel.morphValue.getD targetTy.tableName

/-- A join-table row re-exposed with the pivot column marker, as the inner join
of a belongsToMany selects it. -/
def joinRowAsPivot (jr : DbRow) : DbRow :=
  jr.map (fun kv => (pivotColMark ++ kv.fst, kv.snd))

/-- The rows a belongsToMany fetch produces: target rows reached through the
join table, merged with the marker-column pivot attributes of their join
row. -/
def btmChildRows (store : DbStore) (rel : RelDecl) (parentTy targetTy : TypeInfo)
    (keys : List DbValue) : List DbRow :=
  (tableRows store (resolvedJoinTableName rel parentTy targetTy)).filterMap (fun jr =>
    match getAttr jr (resolvedForeignKey rel parentTy targetTy) with
    | none => none
    | some fkv =>
      if keys.contains fkv then
        match getAttr jr (resolvedOtherKey rel targetTy) with
        | none => none
        | some okv =>
          match (tableRows store targetTy.tableName).find?
              (fun tr => getAttr tr (rel.otherKeyTarget.getD targetTy.idAttribute) == some okv) with
          | none => none
          | some tr => some (tr ++ joinRowAsPivot jr)
      else none)

/-- The rows one batched relation query returns for the given owner keys. -/
def relQueryRows (store : DbStore) (rel : RelDecl) (parentTy targetTy : TypeInfo)
    (keys : List DbValue) : List DbRow :=
  match rel.kind with
  | RelKind.belongsToMany => btmChildRows store rel parentTy targetTy keys
  | RelKind.morphOne | RelKind.morphMany =>
    (tableRows store targetTy.tableName).filter (fun r =>
      (getAttr r (resolvedTypeColumn rel) == some (DbValue.str (morphValueOf rel targetTy)))
      && (match getAttr r (resolvedIdColumn rel) with
          | some v => keys.contains v
          | none => false))
  | _ =>
    (tableRows store targetTy.tableName).filter (fun r =>
      match getAttr r (childKeyCol rel parentTy targetTy) with
      | some v => keys.contains v
      | none => false)

/-- The table one batched relation query targets (the join table for a
belongsToMany). -/
def relQueryTable (rel : RelDecl) (parentTy targetTy : TypeInfo) : String :=
  match rel.kind with
  | RelKind.belongsToMany => resolvedJoinTableName rel parentTy targetTy
  | _ => targetTy.tableName

/-- One batched relation query: a single query whose key set covers every
parent at once, paired with its log entry. -/
def relQuery (opts : FetchOptions) (store : DbStore) (rel : RelDecl)
    (parentTy targetTy : TypeInfo) (parents : List DbRow) : List DbRow × QLog :=
  let keys := keyVals parents (parentKeyCol rel parentTy targetTy)
  (relQueryRows store rel parentTy targetTy keys,
   { table := relQueryTable rel parentTy targetTy, keys := keys, cols := opts.columns })

/-- Whether a fetched child belongs to a parent, by comparing the resolved key
columns. -/
def matchesParent (rel : RelDecl) (parentTy targetTy : TypeInfo) (p : DbRow) (c : ARow) : Bool :=
  match getAttr p (parentKeyCol rel parentTy targetTy),
        getAttr c.attrs (childKeyCol rel parentTy targetTy) with
  | some a, some b => a == b
  | _, _ => false

/-- The slot one parent receives for one branch: the key-matched children as a
RecordSet for the many kinds, the first match (or a null record) for the single
kinds. -/
def mkSlot (rel : RelDecl) (parentTy targetTy : TypeInfo) (childARs : List ARow)
    (p : DbRow) : Slot :=
  let ms := childARs.filter (fun c => matchesParent rel parentTy targetTy p c)
  if rel.kind.returnsMany then Slot.many ms else Slot.one ms.head?

/-- The morphTo candidate whose morphValue equals a stored type value. -/
def candidateFor (rel : RelDecl) (tv : DbValue) : Option (String × String) :=
  rel.candidates.find? (fun c => DbValue.str c.snd == tv)

/-- One query per distinct stored type value with a matching candidate: the
parents carrying that type are covered by a single query against the
candidate's table.  A type value matching no candidate issues no query and is
no error. -/
def morphTypeGroups (opts : FetchOptions) (reg : Registry) (store : DbStore)
    (rel : RelDecl) (parents : List DbRow) :
    List DbValue → Except EagerErr (List (DbValue × TypeInfo × List DbRow)) × List QLog
  | [] => (Except.ok [], [])
  | tv :: rest =>
    match candidateFor rel tv with
    | none => morphTypeGroups opts reg store rel parents rest
    | some cand =>
      match lookupType reg cand.fst with
      | none => (Except.error EagerErr.configuration, [])
      | some tty =>
        let keys := keyVals
          (parents.filter (fun p => getAttr p (resolvedTypeColumn rel) == some tv))
          (resolvedIdColumn rel)
        let children := (tableRows store tty.tableName).filter (fun r =>
          match getAttr r tty.idAttribute with
          | some v => keys.contains v
          | none => false)
        let q : QLog := { table := tty.tableName, keys := keys, cols := opts.columns }
        match morphTypeGroups opts reg store rel parents rest with
        | (Except.error e, log2) => (Except.error e, q :: log2)
        | (Except.ok groups, log2) => (Except.ok ((tv, tty, children) :: groups), q :: log2)

/-- The slot a morphTo parent receives: the child row of the concrete target
type its stored type value names, or a null record when the type value matches
no candidate or no row — never an error. -/
def morphSlotFor (rel : RelDecl) (groups : List (DbValue × TypeInfo × List DbRow))
    (p : DbRow) : Slot :=
  match getAttr p (resolvedTypeColumn rel) with
  | none => Slot.one none
  | some tv =>
    match groups.find? (fun g => g.fst == tv) with
    | none => Slot.one none
    | some g =>
      match getAttr p (resolvedIdColumn rel) with
      | none => Slot.one none
      | some idv =>
        Slot.one ((g.snd.snd.find? (fun c => getAttr c g.snd.fst.idAttribute == some idv)).map
          (fun r => ARow.mk r []))

/-- A morphTo branch: partition the parents by stored type value, fetch each
concrete target type with one query, and give every parent a defined slot.
Nested names below a morphTo branch are not modelled. -/
def loadMorphTo (opts : FetchOptions) (reg : Registry) (store : DbStore)
    (parents : List DbRow) (rel : RelDecl) : Except EagerErr (List Slot) × List QLog :=
  match morphTypeGroups opts reg store rel parents
      (dedup (parents.filterMap (fun p => getAttr p (resolvedTypeColumn rel)))) with
  | (Except.error e, log) => (Except.error e, log)
  | (Except.ok groups, log) =>
    (Except.ok (parents.map (fun p => morphSlotFor rel groups p)), log)

/-- Attach the per-branch slots to the parents: parent i keeps its row and
receives, for each branch name, the i-th slot of that branch. -/
def buildARows (parents : List DbRow) (heads : List String)
    (slotLists : List (List Slot)) : List ARow :=
  (List.range parents.length).map (fun i =>
    ARow.mk (parents.getD i []) (heads.zip (slotLists.map (fun sl => sl.getD i (Slot.one none)))))

/-- Load the branches named by a head list, one after the other, given the
loader of a single branch; the query logs are concatenated in branch order and
the first error wins. -/
def loadHeadsF (oneRel : String → Except EagerErr (List Slot) × List QLog) :
    List String → Except EagerErr (List (List Slot)) × List QLog
  | [] => (Except.ok [], [])
  | h :: hs =>
    match oneRel h with
    | (Except.error e, log1) => (Except.error e, log1)
    | (Except.ok slots, log1) =>
      match loadHeadsF oneRel hs with
      | (Except.error e, log2) => (Except.error e, log1 ++ log2)
      | (Except.ok rest, log2) => (Except.ok (slots :: rest), log1 ++ log2)

/-- Load one branch: resolve the relation method from the record type, issue
the single batched query over all parents jointly, recurse (through the given
continuation) into the nested names with the fetched children as the new
parents, then compute every parent's slot. -/
def loadOneRelF
    (recur : TypeInfo → List DbRow → List (List String) → Except EagerErr (List ARow) × List QLog)
    (opts : FetchOptions) (reg : Registry) (store : DbStore)
    (ty : TypeInfo) (parents : List DbRow) (h : String) (rests : List (List String)) :
    Except EagerErr (List Slot) × List QLog :=
  match lookupRel ty h with
  | none => (Except.error EagerErr.unknownRelation, [])
  | some rel =>
    if rel.kind == RelKind.morphTo then loadMorphTo opts reg store parents rel
    else
      match lookupType reg rel.targetName with
      | none => (Except.error EagerErr.configuration, [])
      | some tty =>
        let qr := relQuery opts store rel ty tty parents
        match recur tty qr.fst rests with
        | (Except.error e, log) => (Except.error e, qr.snd :: log)
        | (Except.ok childARs, log) =>
          (Except.ok (parents.map (fun p => mkSlot rel ty tty childARs p)), qr.snd :: log)

/-- One recursion level of the planner: an empty parent set short-circuits
without a query; otherwise every distinct top-level branch is loaded through
loadHeadsF and loadOneRelF and the slots are attached to the parents. -/
def loadLevel : Nat → FetchOptions → Registry → DbStore → TypeInfo → List DbRow →
    List (List String) → Except EagerErr (List ARow) × List QLog
  | 0, _, _, _, _, _, _ => (Except.error EagerErr.outOfFuel, [])
  | fuel + 1, opts, reg, store, ty, parents, paths =>
    if parents.isEmpty then (Except.ok [], [])
    else
      match loadHeadsF
          (fun h =>
            loadOneRelF
              (fun tty children rests => loadLevel fuel opts reg store tty children rests)
              opts reg store ty parents h (restsFor paths h))
          (headsOf paths) with
      | (Except.error e, log) => (Except.error e, log)
      | (Except.ok slotLists, log) =>
        (Except.ok (buildARows parents (headsOf paths) slotLists), log)

/-- Validation of the requested-name tree against the relation methods of the
record types, performed before any query is issued.  An unresolvable target
type is not a name error (it surfaces later as a configuration error), and
names below a morphTo branch are accepted. -/
def treeValid (fuel : Nat) (reg : Registry) (ty : TypeInfo)
    (paths : List (List String)) : Bool :=
  match fuel with
  | 0 => false
  | fuel' + 1 =>
    (headsOf paths).all (fun h =>
      match lookupRel ty h with
      | none => false
      | some rel =>
        let rests := restsFor paths h
        if rests.isEmpty then true
        else if rel.kind == RelKind.morphTo then true
        else
          match lookupType reg rel.targetName with
          | none => true
          | some tty => treeValid fuel' reg tty rests)

/-- Fuel ample for any recursion over the given paths: one unit per level is
consumed and the nesting depth is bounded by the longest path. -/
def pathsSize (paths : List (List String)) : Nat :=
  paths.foldl (fun acc p => acc + p.length + 1) 1

/-- Modelled from the spec: the eager-load planner entry point (lib/eager.js is
not under src/).  The dotted names are parsed and fully validated
synchronously; a bad name fails with UnknownRelationError before any query is
issued.  Returns the attached records and the complete query log, also on
failure. -/
def eagerLoad (opts : FetchOptions) (reg : Registry) (store : DbStore) (ty : TypeInfo)
    (parents : List DbRow) (names : List String) :
    Except EagerErr (List ARow) × List QLog :=
  let paths := pathsOf names
  if treeValid (pathsSize paths) reg ty paths then
    loadLevel (pathsSize paths) opts reg store ty parents paths
  else (Except.error EagerErr.unknownRelation, [])

/-! Demo record types used by concrete statements and witnesses. -/

/-- A review type with no relations. -/
def reviewTy : TypeInfo := { tableName := "reviews" }

/-- A book type whose reviews relation is a hasMany. -/
def bookTy : TypeInfo :=
  { tableName := "books", relations := [("reviews", hasMany "Review" none none)] }

/-- An author type whose books relation is a hasMany. -/
def authorTy : TypeInfo :=
  { tableName := "authors", relations := [("books", hasMany "Book" none none)] }

/-- The demo registry: authors have many books, books have many reviews. -/
def demoReg : Registry :=
  [("Author", authorTy), ("Book", bookTy), ("Review", reviewTy)]

/-- The sites type of the morph examples. -/
def sitesTy : TypeInfo := { tableName := "sites" }

/-- The photos type of the morph examples. -/
def photosTy : TypeInfo := { tableName := "photos" }

/-- A morphOne relation from sites to photos under the imageable morph name,
with every key argument left to its default. -/
def sitePhotoRel : RelDecl := morphOne "Photo" "imageable" none none

/-- Commutativity of the default join-table name in the two table names. -/
theorem joinTableDefault_comm (a b : String) : joinTableDefault a b = joinTableDefault b a := by
  unfold joinTableDefault
  rcases le_total a b with h | h
  · by_cases h2 : b ≤ a
    · have hab : a = b := le_antisymm h h2
      subst hab; rfl
    · rw [if_pos h, if_neg h2]
  · by_cases h2 : a ≤ b
    · have hab : a = b := le_antisymm h2 h
      subst hab; rfl
    · rw [if_neg h2, if_pos h]

/-- C3, counterexample: the claim quantifies over every relation kind, but for
a morphOne constructed without explicit key arguments the resolved foreign key
is the morph id column (imageable_id), not singularize(ownerTable) ++ "_" ++
idAttribute (site_id). -/
theorem claim3_counterexample :
    ¬ (resolvedForeignKey sitePhotoRel sitesTy photosTy =
        singularize (ownerTableName sitePhotoRel sitesTy photosTy) ++ "_" ++
          ownerIdAttribute sitePhotoRel sitesTy photosTy) := by
  decide

/-- C3 (amended to the non-morph kinds): for every relation of a non-morph kind
constructed without an explicit foreignKey the resolved foreign key equals
singularize(ownerTable) ++ "_" ++ idAttribute, and supplying an explicit value
for any one key argument (foreignKey, otherKey or joinTableName) replaces
exactly that resolved key, leaving the other resolved keys unchanged. -/
theorem claim3_key_defaults (rel : RelDecl) (parentTy targetTy : TypeInfo) :
    (rel.kind.isMorph = false → rel.foreignKey = none →
      resolvedForeignKey rel parentTy targetTy =
        singularize (ownerTableName rel parentTy targetTy) ++ "_" ++
          ownerIdAttribute rel parentTy targetTy)
    ∧ (∀ fk : String,
        resolvedForeignKey { rel with foreignKey := some fk } parentTy targetTy = fk
        ∧ resolvedOtherKey { rel with foreignKey := some fk } targetTy =
            resolvedOtherKey rel targetTy
        ∧ resolvedJoinTableName { rel with foreignKey := some fk } parentTy targetTy =
            resolvedJoinTableName rel parentTy targetTy)
    ∧ (∀ ok : String,
        resolvedOtherKey { rel with otherKey := some ok } targetTy = ok
        ∧ resolvedForeignKey { rel with otherKey := some ok } parentTy targetTy =
            resolvedForeignKey rel parentTy targetTy
        ∧ resolvedJoinTableName { rel with otherKey := some ok } parentTy targetTy =
            resolvedJoinTableName rel parentTy targetTy)
    ∧ (∀ jt : String,
        resolvedJoinTableName { rel with joinTableName := some jt } parentTy targetTy = jt
        ∧ resolvedForeignKey { rel with joinTableName := some jt } parentTy targetTy =
            resolvedForeignKey rel parentTy targetTy
        ∧ resolvedOtherKey { rel with joinTableName := some jt } targetTy =
            resolvedOtherKey rel targetTy) := by
  refine ⟨?_, ?_, ?_, ?_⟩
  · intro hm hf
    simp [resolvedForeignKey, hf, hm, conventionalKey]
  · intro fk
    exact ⟨rfl, rfl, rfl⟩
  · intro ok
    exact ⟨rfl, rfl, rfl⟩
  · intro jt
    exact ⟨rfl, rfl, rfl⟩

/-- Witness for claim3_key_defaults at a concrete hasMany relation. -/
theorem claim3_witness :
    resolvedForeignKey (hasMany "Book" none none) authorTy bookTy =
      singularize (ownerTableName (hasMany "Book" none none) authorTy bookTy) ++ "_" ++
        ownerIdAttribute (hasMany "Book" none none) authorTy bookTy :=
  (claim3_key_defaults (hasMany "Book" none none) authorTy bookTy).1 (by decide) (by decide)

/-- C4: without an explicit joinTableName the resolved belongsToMany join-table
name is the lexicographically sorted pair of table names joined by an
underscore, so relating A to B and relating B to A resolve the same join-table
name, whichever side declares the relation. -/
theorem claim4_join_table_commutative (A B : TypeInfo) (nA nB : String) :
    resolvedJoinTableName (belongsToMany nB none none none none none) A B =
    resolvedJoinTableName (belongsToMany nA none none none none none) B A := by
  simp only [resolvedJoinTableName, belongsToMany]
  exact joinTableDefault_comm A.tableName B.tableName

/-- C5: a fetch whose executed query returned zero rows raises
Collection.EmptyError (record set) or Model.NotFoundError (single record) iff
the require option is true; with require false or unset the error is suppressed
and the caller receives the empty set (collection) or null (model); and in the
step trace the query execution strictly precedes any raised error. -/
theorem claim5_fetch_require (response : List DbRow) (require : Option Bool) :
    (collectionFetch response require = Except.error FetchErr.emptyError ↔
      response = [] ∧ require = some true)
    ∧ (modelDoFetch response require = Except.error FetchErr.notFoundError ↔
        response = [] ∧ require = some true)
    ∧ (response = [] → require ≠ some true →
        collectionFetch response require = Except.ok []
        ∧ modelDoFetch response require = Except.ok none)
    ∧ (response ≠ [] →
        collectionFetch response require = Except.ok response
        ∧ modelDoFetch response require = Except.ok response.head?)
    ∧ (collectionFetchTrace response require).head? = some FetchStep.queryExecuted
    ∧ (FetchStep.errorRaised ∈ collectionFetchTrace response require ↔
        response = [] ∧ require = some true)
    ∧ (modelDoFetchTrace response require).head? = some FetchStep.queryExecuted
    ∧ (FetchStep.errorRaised ∈ modelDoFetchTrace response require ↔
        response = [] ∧ require = some true) := by
  cases response with
  | nil =>
    cases require with
    | none =>
      simp [collectionFetch, modelDoFetch, collectionFetchTrace, modelDoFetchTrace]
    | some b =>
      cases b <;>
        simp [collectionFetch, modelDoFetch, collectionFetchTrace, modelDoFetchTrace]
  | cons r rs =>
    cases require with
    | none =>
      simp [collectionFetch, modelDoFetch, collectionFetchTrace, modelDoFetchTrace]
    | some b =>
      cases b <;>
        simp [collectionFetch, modelDoFetch, collectionFetchTrace, modelDoFetchTrace]

/-- Witness for claim5_fetch_require: an empty response with the require option
unset is suppressed into an empty set and a null model. -/
theorem claim5_witness :
    collectionFetch ([] : List DbRow) none = Except.ok []
    ∧ modelDoFetch ([] : List DbRow) none = Except.ok none :=
  (claim5_fetch_require [] none).2.2.1 rfl (by decide)

/-- C10: an update that affects zero rows rejects with NoRowsUpdatedError
exactly unless the caller passed require false (so save's require defaults to
true, the opposite default of fetch's, whose unset require suppresses the empty
result), and an insert never raises NoRowsUpdatedError. -/
theorem claim10_save_require (modelId : Option DbValue) (resp : SyncResp)
    (require : Option Bool) :
    (saveHandleResponse SaveMethod.update modelId (SyncResp.affected 0) require
        = Except.error SaveErr.noRowsUpdated ↔ require ≠ some false)
    ∧ (∀ n : Nat, n ≠ 0 →
        saveHandleResponse SaveMethod.update modelId (SyncResp.affected n) require
          = Except.ok modelId)
    ∧ (∀ e, saveHandleResponse SaveMethod.insert modelId resp require ≠ Except.error e)
    ∧ saveHandleResponse SaveMethod.update modelId (SyncResp.affected 0) none
        = Except.error SaveErr.noRowsUpdated
    ∧ collectionFetch [] none = Except.ok []
    ∧ modelDoFetch [] none = Except.ok none := by
  refine ⟨?_, ?_, ?_, ?_, ?_, ?_⟩
  · rcases require with _ | b
    · simp [saveHandleResponse]
    · cases b <;> simp [saveHandleResponse]
  · intro n hn
    simp [saveHandleResponse, hn]
  · intro e
    cases modelId <;> simp [saveHandleResponse]
  · simp [saveHandleResponse]
  · simp [collectionFetch]
  · simp [modelDoFetch]

/-- Witness for claim10_save_require: an update affecting three rows resolves
with the unchanged model id. -/
theorem claim10_witness :
    saveHandleResponse SaveMethod.update (some (DbValue.num 5)) (SyncResp.affected 3) none
      = Except.ok (some (DbValue.num 5)) :=
  (claim10_save_require (some (DbValue.num 5)) (SyncResp.insertIds []) none).2.1 3 (by decide)

/-- Re-parsing an already-split record is a no-op. -/
theorem parsePivotOne_idem (m : PivotRecord) :
    parsePivotOne (parsePivotOne m) = parsePivotOne m := by
  unfold parsePivotOne
  simp [List.filter_filter]

/-- C8: parsePivot is idempotent on the record sets of a joined relation — a
second application neither duplicates nor loses pivot attributes and equals the
single application. -/
theorem claim8_parsePivot_idempotent (rel : RelDecl) (ms : List PivotRecord)
    (h : rel.isJoined = true) :
    parsePivot rel (parsePivot rel ms) = parsePivot rel ms := by
  simp only [parsePivot, h, if_true]
  induction ms with
  | nil => simp
  | cons x xs ih => simp [parsePivotOne_idem, ih]

/-- Witness for claim8_parsePivot_idempotent at a concrete belongsToMany record
set carrying one pivot column. -/
theorem claim8_witness :
    parsePivot (belongsToMany "B" none none none none none)
        (parsePivot (belongsToMany "B" none none none none none)
          [{ attrs := [("id", DbValue.num 1), ("_pivot_role", DbValue.str "editor")] }])
      = parsePivot (belongsToMany "B" none none none none none)
          [{ attrs := [("id", DbValue.num 1), ("_pivot_role", DbValue.str "editor")] }] :=
  claim8_parsePivot_idempotent (belongsToMany "B" none none none none none)
    [{ attrs := [("id", DbValue.num 1), ("_pivot_role", DbValue.str "editor")] }] (by decide)

/-- Membership in dedup is membership in the underlying list. -/
theorem mem_dedup {α : Type} [DecidableEq α] {a : α} {l : List α} :
    a ∈ dedup l ↔ a ∈ l := by
  induction l with
  | nil => simp [dedup]
  | cons x xs ih =>
    simp only [dedup]
    by_cases hx : x ∈ dedup xs
    · rw [if_pos hx]
      simp only [List.mem_cons]
      constructor
      · intro h
        exact Or.inr (ih.mp h)
      · rintro (rfl | h)
        · exact hx
        · exact ih.mpr h
    · rw [if_neg hx]
      simp [List.mem_cons, ih]

/-- The head segment of every requested name is among the top-level heads of
the parsed tree. -/
theorem head_mem_headsOf {names : List String} {nm h0 : String}
    (hmem : nm ∈ names) (hh : (splitDots nm).head? = some h0) :
    h0 ∈ headsOf (pathsOf names) := by
  apply mem_dedup.mpr
  apply List.mem_filterMap.mpr
  exact ⟨splitDots nm, List.mem_map_of_mem _ hmem, hh⟩

/-- C6: requesting an eager-load name whose leading segment matches no relation
method of the record type fails with UnknownRelationError during parsing of the
requested-name tree, with an empty query log — zero store queries execute, so
no partially-attached eager result is produced. -/
theorem claim6_unknown_relation (opts : FetchOptions) (reg : Registry) (store : DbStore)
    (ty : TypeInfo) (parents : List DbRow) (names : List String) (nm h0 : String)
    (hmem : nm ∈ names) (hh : (splitDots nm).head? = some h0)
    (hbad : lookupRel ty h0 = none) :
    eagerLoad opts reg store ty parents names = (Except.error EagerErr.unknownRelation, []) := by
  have hhead : h0 ∈ headsOf (pathsOf names) := head_mem_headsOf hmem hh
  have hvalid : treeValid (pathsSize (pathsOf names)) reg ty (pathsOf names) = false := by
    cases hps : pathsSize (pathsOf names) with
    | zero => simp [treeValid]
    | succ k =>
      simp only [treeValid]
      apply List.all_eq_false.mpr
      refine ⟨h0, hhead, ?_⟩
      simp [hbad]
  simp [eagerLoad, hvalid]

/-- Witness for claim6_unknown_relation: a bogus relation name on the author
type fails without touching the store. -/
theorem claim6_witness :
    eagerLoad {} demoReg [] authorTy [[("id", DbValue.num 1)]] ["bogus"] =
      (Except.error EagerErr.unknownRelation, []) :=
  claim6_unknown_relation {} demoReg [] authorTy [[("id", DbValue.num 1)]] ["bogus"]
    "bogus" "bogus" (by decide) (by decide) (by decide)

/-- The shape a slot of one relation kind must have: a RecordSet slot for the
many kinds, a nullable-record slot for the single kinds. -/
def slotShapeOkB (k : RelKind) : Slot → Bool
  | Slot.many _ => k.returnsMany
  | Slot.one _ => !k.returnsMany

/-- mkSlot always produces a slot of the kind-appropriate shape. -/
theorem mkSlot_shape (rel : RelDecl) (pty tty : TypeInfo) (cs : List ARow) (p : DbRow) :
    slotShapeOkB rel.kind (mkSlot rel pty tty cs p) = true := by
  unfold mkSlot
  cases h : rel.kind.returnsMany <;> simp [h, slotShapeOkB]

/-- morphSlotFor always produces a nullable-record slot. -/
theorem morphSlotFor_one (rel : RelDecl) (groups : List (DbValue × TypeInfo × List DbRow))
    (p : DbRow) : ∃ o, morphSlotFor rel groups p = Slot.one o := by
  unfold morphSlotFor
  split
  · exact ⟨none, rfl⟩
  · split
    · exact ⟨none, rfl⟩
    · split
      · exact ⟨none, rfl⟩
      · exact ⟨_, rfl⟩

/-- A successful loadMorphTo yields one morph slot per parent, in order. -/
theorem loadMorphTo_ok (opts : FetchOptions) (reg : Registry) (store : DbStore)
    (parents : List DbRow) (rel : RelDecl) (slots : List Slot) (log : List QLog)
    (h : loadMorphTo opts reg store parents rel = (Except.ok slots, log)) :
    ∃ groups, slots = parents.map (fun p => morphSlotFor rel groups p) := by
  unfold loadMorphTo at h
  rcases hg : morphTypeGroups opts reg store rel parents
      (dedup (parents.filterMap (fun p => getAttr p (resolvedTypeColumn rel)))) with ⟨res, lg⟩
  rw [hg] at h
  cases res with
  | error e => simp at h
  | ok groups =>
    simp only [Prod.mk.injEq, Except.ok.injEq] at h
    exact ⟨groups, h.1.symm⟩

/-- A successful loadOneRelF resolves the relation method by name and yields
exactly one kind-appropriately shaped slot per parent. -/
theorem loadOneRelF_shape
    (recur : TypeInfo → List DbRow → List (List String) → Except EagerErr (List ARow) × List QLog)
    (opts : FetchOptions) (reg : Registry) (store : DbStore) (ty : TypeInfo)
    (parents : List DbRow) (h : String) (rests : List (List String))
    (slots : List Slot) (log : List QLog)
    (hok : loadOneRelF recur opts reg store ty parents h rests = (Except.ok slots, log)) :
    ∃ rel, lookupRel ty h = some rel ∧ slots.length = parents.length ∧
      ∀ s ∈ slots, slotShapeOkB rel.kind s = true := by
  unfold loadOneRelF at hok
  rcases hrel : lookupRel ty h with _ | rel
  · rw [hrel] at hok
    simp at hok
  · rw [hrel] at hok
    refine ⟨rel, rfl, ?_⟩
    rcases hmt : rel.kind == RelKind.morphTo with _ | _
    · simp only [hmt, Bool.false_eq_true, if_false] at hok
      rcases hty : lookupType reg rel.targetName with _ | tty
      · rw [hty] at hok
        simp at hok
      · rw [hty] at hok
        simp only [] at hok
        rcases hrec : recur tty (relQuery opts store rel ty tty parents).fst rests with ⟨res, lg⟩
        rw [hrec] at hok
        cases res with
        | error e => simp at hok
        | ok childARs =>
          simp only [Prod.mk.injEq, Except.ok.injEq] at hok
          obtain ⟨hslots, _⟩ := hok
          subst hslots
          refine ⟨by simp, ?_⟩
          intro s hs
          obtain ⟨p, _, rfl⟩ := List.mem_map.mp hs
          exact mkSlot_shape rel ty tty childARs p
    · simp only [hmt, if_true] at hok
      obtain ⟨groups, hsl⟩ := loadMorphTo_ok _ _ _ _ _ _ _ hok
      subst hsl
      have hkind : rel.kind = RelKind.morphTo := beq_iff_eq.mp hmt
      refine ⟨by simp, ?_⟩
      intro s hs
      obtain ⟨p, _, rfl⟩ := List.mem_map.mp hs
      obtain ⟨o, ho⟩ := morphSlotFor_one rel groups p
      rw [ho, hkind]
      rfl

/-- A successful loadHeadsF yields one slot list per head, each one satisfying
whatever per-branch property the single-branch loader guarantees. -/
theorem loadHeadsF_shape
    (oneRel : String → Except EagerErr (List Slot) × List QLog)
    (P : String → List Slot → Prop)
    (hP : ∀ h slots log, oneRel h = (Except.ok slots, log) → P h slots) :
    ∀ heads xss log, loadHeadsF oneRel heads = (Except.ok xss, log) →
      xss.length = heads.length ∧
      ∀ (j : Nat) (hj : String) (xsj : List Slot),
        heads[j]? = some hj → xss[j]? = some xsj → P hj xsj := by
  intro heads
  induction heads with
  | nil =>
    intro xss log h
    simp only [loadHeadsF, Prod.mk.injEq, Except.ok.injEq] at h
    obtain ⟨hx, _⟩ := h
    subst hx
    exact ⟨rfl, by intro j hj xsj h1 _; simp at h1⟩
  | cons hh hs ih =>
    intro xss log h
    simp only [loadHeadsF] at h
    rcases h1 : oneRel hh with ⟨r1, log1⟩
    rw [h1] at h
    cases r1 with
    | error e => simp at h
    | ok slots =>
      rcases h2 : loadHeadsF oneRel hs with ⟨r2, log2⟩
      rw [h2] at h
      cases r2 with
      | error e => simp at h
      | ok rest =>
        simp only [Prod.mk.injEq, Except.ok.injEq] at h
        obtain ⟨hx, _⟩ := h
        subst hx
        obtain ⟨ihlen, ihP⟩ := ih rest log2 h2
        refine ⟨by simp [ihlen], ?_⟩
        intro j hj xsj hj1 hj2
        cases j with
        | zero =>
          simp only [List.getElem?_cons_zero, Option.some.injEq] at hj1 hj2
          subst hj1
          subst hj2
          exact hP hh slots log1 h1
        | succ j2 =>
          simp only [List.getElem?_cons_succ] at hj1 hj2
          exact ihP j2 hj xsj hj1 hj2

/-- getD inside the bounds is a member. -/
theorem getD_mem {α : Type} {l : List α} {i : Nat} (h : i < l.length) (d : α) :
    l.getD i d ∈ l := by
  induction l generalizing i with
  | nil => simp at h
  | cons x xs ih =>
    cases i with
    | zero => simp
    | succ j =>
      have hj : j < xs.length := by simpa using h
      exact List.mem_cons_of_mem _ (ih hj)

/-- Finding a present key in a zipped association list returns the component at
the first index carrying that key. -/
theorem zip_find_of_mem {heads : List String} {nm : String} :
    ∀ {ys : List Slot}, heads.length = ys.length → nm ∈ heads →
      ∃ (j : Nat) (sl : Slot), heads[j]? = some nm ∧ ys[j]? = some sl ∧
        ((heads.zip ys).find? (fun e => e.fst = nm)).map (fun e => e.snd) = some sl := by
  induction heads with
  | nil => intro ys _ hmem; simp at hmem
  | cons h hs ih =>
    intro ys hlen hmem
    cases ys with
    | nil => simp at hlen
    | cons y ys2 =>
      by_cases he : h = nm
      · subst he
        refine ⟨0, y, by simp, by simp, ?_⟩
        simp [List.find?]
      · have hmem2 : nm ∈ hs := by
          rcases List.mem_cons.mp hmem with h1 | h1
          · exact absurd h1.symm he
          · exact h1
        obtain ⟨j, sl, h1, h2, h3⟩ := ih (by simpa using hlen) hmem2
        refine ⟨j + 1, sl, by simpa using h1, by simpa using h2, ?_⟩
        rw [List.zip_cons_cons, List.find?_cons_of_neg]
        · exact h3
        · simp [he]

/-- Every record buildARows produces is the attachment of some indexed
parent. -/
theorem mem_buildARows {parents : List DbRow} {heads : List String}
    {xss : List (List Slot)} {ar : ARow} (h : ar ∈ buildARows parents heads xss) :
    ∃ i, i < parents.length ∧
      ar = ARow.mk (parents.getD i [])
        (heads.zip (xss.map (fun sl => sl.getD i (Slot.one none)))) := by
  unfold buildARows at h
  obtain ⟨i, hi, hio⟩ := List.mem_map.mp h
  exact ⟨i, List.mem_range.mp hi, hio.symm⟩

/-- C2: after a successful eager load, every attached parent record holds a
defined slot under every requested top-level relation name, shaped by the
relation kind — a RecordSet slot for hasMany, belongsToMany and morphMany, a
nullable-record slot for hasOne, belongsTo, morphOne and morphTo — and a parent
with no key-matched children receives the empty RecordSet (many kinds) or the
null record (single kinds), never an undefined slot. -/
theorem claim2_defined_slots (opts : FetchOptions) (reg : Registry) (store : DbStore)
    (ty : TypeInfo) (parents : List DbRow) (names : List String)
    (ars : List ARow) (log : List QLog)
    (hload : eagerLoad opts reg store ty parents names = (Except.ok ars, log)) :
    (∀ ar ∈ ars, ∀ nm ∈ headsOf (pathsOf names),
      ∃ slot, lookupSlot ar nm = some slot ∧
        ∃ rel, lookupRel ty nm = some rel ∧ slotShapeOkB rel.kind slot = true)
    ∧ (∀ (rel : RelDecl) (pty tty : TypeInfo) (p : DbRow),
        mkSlot rel pty tty [] p =
          (if rel.kind.returnsMany then Slot.many [] else Slot.one none)) := by
  constructor
  · intro ar har nm hnm
    unfold eagerLoad at hload
    by_cases hv : treeValid (pathsSize (pathsOf names)) reg ty (pathsOf names) = true
    · rw [if_pos hv] at hload
      cases hps : pathsSize (pathsOf names) with
      | zero =>
        rw [hps] at hload
        simp only [loadLevel] at hload
        simp at hload
      | succ k =>
        rw [hps] at hload
        simp only [loadLevel] at hload
        by_cases hemp : parents.isEmpty = true
        · rw [if_pos hemp] at hload
          simp only [Prod.mk.injEq, Except.ok.injEq] at hload
          obtain ⟨hx, _⟩ := hload
          subst hx
          simp at har
        · rw [if_neg hemp] at hload
          rcases hlh : loadHeadsF
              (fun h =>
                loadOneRelF
                  (fun tty children rests => loadLevel k opts reg store tty children rests)
                  opts reg store ty parents h (restsFor (pathsOf names) h))
              (headsOf (pathsOf names)) with ⟨res, lg⟩
          rw [hlh] at hload
          cases res with
          | error e => simp at hload
          | ok xss =>
            simp only [Prod.mk.injEq, Except.ok.injEq] at hload
            obtain ⟨hx, _⟩ := hload
            subst hx
            obtain ⟨hlen, hPall⟩ := loadHeadsF_shape _
              (fun h slots => ∃ rel, lookupRel ty h = some rel ∧
                slots.length = parents.length ∧
                ∀ s ∈ slots, slotShapeOkB rel.kind s = true)
              (fun h slots log hok => loadOneRelF_shape _ _ _ _ _ _ _ _ _ _ hok)
              _ _ _ hlh
            obtain ⟨i, hi, hio⟩ := mem_buildARows har
            have hzlen : (headsOf (pathsOf names)).length =
                (xss.map (fun sl => sl.getD i (Slot.one none))).length := by
              simp [hlen]
            obtain ⟨j, sl, hj1, hj2, hfind⟩ := zip_find_of_mem hzlen hnm
            rw [List.getElem?_map] at hj2
            rcases hxj : xss[j]? with _ | xsj
            · rw [hxj] at hj2; simp at hj2
            · rw [hxj] at hj2
              have hj3 : xsj.getD i (Slot.one none) = sl := by simpa using hj2
              obtain ⟨rel, hrel, hxlen, hsh⟩ := hPall j nm xsj hj1 hxj
              refine ⟨sl, ?_, rel, hrel, ?_⟩
              · rw [hio]
                simpa [lookupSlot, ARow.related] using hfind
              · apply hsh
                rw [← hj3]
                exact getD_mem (by rw [hxlen]; exact hi) _
    · rw [if_neg hv] at hload
      simp at hload
  · intro rel pty tty p
    simp [mkSlot]

/-- The demo store: one book of author 1, one review of that book. -/
def demoStore : DbStore :=
  [("books", [[("id", DbValue.num 10), ("author_id", DbValue.num 1)]]),
   ("reviews", [[("id", DbValue.num 100), ("book_id", DbValue.num 10)]])]

/-- Two author rows; author 2 has no books. -/
def demoParents : List DbRow := [[("id", DbValue.num 1)], [("id", DbValue.num 2)]]

/-- Witness for claim2_defined_slots: author 2, who has no books, still carries
a defined books slot, a RecordSet-shaped (empty) one. -/
theorem claim2_witness :
    ∃ slot,
      lookupSlot (ARow.mk [("id", DbValue.num 2)] [("books", Slot.many [])]) "books" =
        some slot ∧
      ∃ rel, lookupRel authorTy "books" = some rel ∧ slotShapeOkB rel.kind slot = true :=
  (claim2_defined_slots {} demoReg demoStore authorTy demoParents ["books"]
    [ARow.mk [("id", DbValue.num 1)]
      [("books", Slot.many [ARow.mk [("id", DbValue.num 10), ("author_id", DbValue.num 1)] []])],
     ARow.mk [("id", DbValue.num 2)] [("books", Slot.many [])]]
    [{ table := "books", keys := [DbValue.num 1, DbValue.num 2], cols := none }]
    rfl).1
    (ARow.mk [("id", DbValue.num 2)] [("books", Slot.many [])])
    (List.Mem.tail _ (List.Mem.head _))
    "books" (by decide)

/-- A level with no requested paths issues no query. -/
theorem loadLevel_nil_paths_log (f : Nat) (opts : FetchOptions) (reg : Registry)
    (store : DbStore) (ty : TypeInfo) (rows : List DbRow) :
    (loadLevel f opts reg store ty rows []).snd = [] := by
  cases f with
  | zero => rfl
  | succ k =>
    simp only [loadLevel]
    by_cases h : rows.isEmpty = true
    · rw [if_pos h]
    · rw [if_neg h]
      rfl

/-- The reviews level over the fetched books issues exactly one query covering
all books jointly, and none at all when there are no books. -/
theorem reviewsLevel_log (f : Nat) (opts : FetchOptions) (store : DbStore)
    (children : List DbRow) :
    (loadLevel (f + 1) opts demoReg store bookTy children [["reviews"]]).snd =
      (if children = [] then []
       else [(relQuery opts store (hasMany "Review" none none) bookTy reviewTy children).snd]) := by
  cases children with
  | nil => rfl
  | cons c cs =>
    simp only [loadLevel, List.isEmpty_cons, Bool.false_eq_true, if_false]
    simp only [show headsOf [["reviews"]] = ["reviews"] from rfl,
      show restsFor [["reviews"]] "reviews" = [] from rfl]
    simp only [loadHeadsF, loadOneRelF,
      show lookupRel bookTy "reviews" = some (hasMany "Review" none none) from rfl,
      show ((hasMany "Review" none none).kind == RelKind.morphTo) = false from rfl,
      Bool.false_eq_true, if_false,
      show (hasMany "Review" none none).targetName = "Review" from rfl,
      show lookupType demoReg "Review" = some reviewTy from rfl]
    simp only [show restsFor [["reviews"]] "reviews" = [] from rfl]
    rcases hrec : loadLevel f opts demoReg store reviewTy
        (relQuery opts store (hasMany "Review" none none) bookTy reviewTy (c :: cs)).fst []
      with ⟨res, lg⟩
    have hlg : lg = [] := by
      have h0 := loadLevel_nil_paths_log f opts demoReg store reviewTy
        (relQuery opts store (hasMany "Review" none none) bookTy reviewTy (c :: cs)).fst
      rw [hrec] at h0
      exact h0
    subst hlg
    cases res <;> simp

/-- One-step unfolding of loadLevel at a successor fuel value. -/
theorem loadLevel_succ_def (fuel : Nat) (opts : FetchOptions) (reg : Registry)
    (store : DbStore) (ty : TypeInfo) (parents : List DbRow) (paths : List (List String)) :
    loadLevel (fuel + 1) opts reg store ty parents paths =
      (if parents.isEmpty then (Except.ok [], [])
       else
        match loadHeadsF
            (fun h =>
              loadOneRelF
                (fun tty children rests => loadLevel fuel opts reg store tty children rests)
                opts reg store ty parents h (restsFor paths h))
            (headsOf paths) with
        | (Except.error e, log) => (Except.error e, log)
        | (Except.ok slotLists, log) =>
          (Except.ok (buildARows parents (headsOf paths) slotLists), log)) := rfl

/-- The books level over a non-empty author set issues exactly one books query
covering all authors jointly, followed by the reviews-level queries. -/
theorem booksLevel_log (f : Nat) (opts : FetchOptions) (store : DbStore)
    (parents : List DbRow) (hne : parents ≠ []) :
    (loadLevel (f + 1 + 1) opts demoReg store authorTy parents [["books", "reviews"]]).snd =
      (relQuery opts store (hasMany "Book" none none) authorTy bookTy parents).snd ::
        (if (relQuery opts store (hasMany "Book" none none) authorTy bookTy parents).fst = []
         then []
         else [(relQuery opts store (hasMany "Review" none none) bookTy reviewTy
                  (relQuery opts store (hasMany "Book" none none) authorTy bookTy parents).fst).snd]) := by
  cases parents with
  | nil => exact absurd rfl hne
  | cons p ps =>
    rw [loadLevel_succ_def]
    simp only [List.isEmpty_cons, Bool.false_eq_true, if_false]
    simp only [show headsOf [["books", "reviews"]] = ["books"] from rfl]
    simp only [loadHeadsF, loadOneRelF,
      show lookupRel authorTy "books" = some (hasMany "Book" none none) from rfl,
      show ((hasMany "Book" none none).kind == RelKind.morphTo) = false from rfl,
      Bool.false_eq_true, if_false,
      show (hasMany "Book" none none).targetName = "Book" from rfl,
      show lookupType demoReg "Book" = some bookTy from rfl]
    simp only [show restsFor [["books", "reviews"]] "books" = [["reviews"]] from rfl]
    rcases hrec : loadLevel (f + 1) opts demoReg store bookTy
        (relQuery opts store (hasMany "Book" none none) authorTy bookTy (p :: ps)).fst
        [["reviews"]] with ⟨res, lg⟩
    have hlg : lg =
        (if (relQuery opts store (hasMany "Book" none none) authorTy bookTy (p :: ps)).fst = []
         then []
         else [(relQuery opts store (hasMany "Review" none none) bookTy reviewTy
                  (relQuery opts store (hasMany "Book" none none) authorTy bookTy (p :: ps)).fst).snd]) := by
      have h0 := reviewsLevel_log f opts store
        (relQuery opts store (hasMany "Book" none none) authorTy bookTy (p :: ps)).fst
      rw [hrec] at h0
      exact h0
    subst hlg
    cases res <;> simp

/-- C1: eager-loading the dotted name books.reviews over a non-empty author set
issues exactly one store query for books, whose key set is the id of every
author at once, and exactly one store query for reviews, whose key set is the
id of every fetched book at once (and none when there are no books to recurse
into) — the query log never contains one query per parent record, at either
nesting level. -/
theorem claim1_no_n_plus_one (opts : FetchOptions) (store : DbStore)
    (parents : List DbRow) (hne : parents ≠ []) :
    (eagerLoad opts demoReg store authorTy parents ["books.reviews"]).snd =
      (relQuery opts store (hasMany "Book" none none) authorTy bookTy parents).snd ::
        (if (relQuery opts store (hasMany "Book" none none) authorTy bookTy parents).fst = []
         then []
         else [(relQuery opts store (hasMany "Review" none none) bookTy reviewTy
                  (relQuery opts store (hasMany "Book" none none) authorTy bookTy parents).fst).snd])
    ∧ (relQuery opts store (hasMany "Book" none none) authorTy bookTy parents).snd.keys =
        keyVals parents authorTy.idAttribute
    ∧ (relQuery opts store (hasMany "Book" none none) authorTy bookTy parents).snd.table =
        bookTy.tableName
    ∧ (∀ children : List DbRow,
        (relQuery opts store (hasMany "Review" none none) bookTy reviewTy children).snd.keys =
          keyVals children bookTy.idAttribute
        ∧ (relQuery opts store (hasMany "Review" none none) bookTy reviewTy children).snd.table =
            reviewTy.tableName) := by
  refine ⟨?_, rfl, rfl, fun children => ⟨rfl, rfl⟩⟩
  have e1 : eagerLoad opts demoReg store authorTy parents ["books.reviews"] =
      loadLevel (2 + 1 + 1) opts demoReg store authorTy parents [["books", "reviews"]] := rfl
  rw [e1]
  exact booksLevel_log 2 opts store parents hne

/-- Witness for claim1_no_n_plus_one at the concrete demo store and parents. -/
theorem claim1_witness :
    (eagerLoad {} demoReg demoStore authorTy demoParents ["books.reviews"]).snd =
      (relQuery {} demoStore (hasMany "Book" none none) authorTy bookTy demoParents).snd ::
        (if (relQuery {} demoStore (hasMany "Book" none none) authorTy bookTy demoParents).fst = []
         then []
         else [(relQuery {} demoStore (hasMany "Review" none none) bookTy reviewTy
                  (relQuery {} demoStore (hasMany "Book" none none) authorTy bookTy demoParents).fst).snd]) :=
  (claim1_no_n_plus_one {} demoStore demoParents (by decide)).1

/-- The posts type of the morph examples. -/
def postsTy : TypeInfo := { tableName := "posts" }

/-- A morphTo relation named imageable with candidates Site (morphValue site)
and Post (morphValue post). -/
def photoMorphRel : RelDecl :=
  morphTo "imageable" none
    [MorphCandidateArg.withValue "Site" sitesTy "site",
     MorphCandidateArg.withValue "Post" postsTy "post"]

/-- The photos type carrying the imageable morphTo relation. -/
def photoTy : TypeInfo :=
  { tableName := "photos", relations := [("imageable", photoMorphRel)] }

/-- Registry of the morph example. -/
def morphReg : Registry := [("Photo", photoTy), ("Site", sitesTy), ("Post", postsTy)]

/-- Store of the morph example: one site row and one post row. -/
def morphStore : DbStore :=
  [("sites", [[("id", DbValue.num 3), ("name", DbValue.str "s3")]]),
   ("posts", [[("id", DbValue.num 7), ("title", DbValue.str "p7")]])]

/-- Three photo rows: one typed post, one typed site, one whose stored type
value matches no candidate. -/
def photoRows : List DbRow :=
  [[("id", DbValue.num 21), ("imageable_type", DbValue.str "post"), ("imageable_id", DbValue.num 7)],
   [("id", DbValue.num 22), ("imageable_type", DbValue.str "site"), ("imageable_id", DbValue.num 3)],
   [("id", DbValue.num 23), ("imageable_type", DbValue.str "video"), ("imageable_id", DbValue.num 9)]]

/-- C7: fetching the imageable morphTo over candidates Site (morphValue site)
and Post (morphValue post) resolves each row with stored type post against the
posts table and each row with stored type site against the sites table (one
query per concrete type), a row whose stored type matches no candidate gets a
null result rather than a thrown error, and a candidate supplied without an
explicit morphValue defaults it to the target's tableName. -/
theorem claim7_morphTo_dispatch :
    (eagerLoad {} morphReg morphStore photoTy photoRows ["imageable"]).fst =
      Except.ok
        [ARow.mk
          [("id", DbValue.num 21), ("imageable_type", DbValue.str "post"),
           ("imageable_id", DbValue.num 7)]
          [("imageable",
            Slot.one (some (ARow.mk [("id", DbValue.num 7), ("title", DbValue.str "p7")] [])))],
         ARow.mk
          [("id", DbValue.num 22), ("imageable_type", DbValue.str "site"),
           ("imageable_id", DbValue.num 3)]
          [("imageable",
            Slot.one (some (ARow.mk [("id", DbValue.num 3), ("name", DbValue.str "s3")] [])))],
         ARow.mk
          [("id", DbValue.num 23), ("imageable_type", DbValue.str "video"),
           ("imageable_id", DbValue.num 9)]
          [("imageable", Slot.one none)]]
    ∧ (eagerLoad {} morphReg morphStore photoTy photoRows ["imageable"]).snd =
        [{ table := "posts", keys := [DbValue.num 7], cols := none },
         { table := "sites", keys := [DbValue.num 3], cols := none }]
    ∧ normalizeCandidate (MorphCandidateArg.plain "Site" sitesTy) = ("Site", "sites") :=
  ⟨rfl, rfl, rfl⟩

/-- Every query a morphTo partition issues carries the column selection of the
options it was handed. -/
theorem morphTypeGroups_cols (opts : FetchOptions) (reg : Registry) (store : DbStore)
    (rel : RelDecl) (parents : List DbRow) :
    ∀ (tvals : List DbValue) (q : QLog),
      q ∈ (morphTypeGroups opts reg store rel parents tvals).snd → q.cols = opts.columns := by
  intro tvals
  induction tvals with
  | nil => intro q hq; simp [morphTypeGroups] at hq
  | cons tv rest ih =>
    intro q hq
    simp only [morphTypeGroups] at hq
    rcases hc : candidateFor rel tv with _ | cand
    · simp only [hc] at hq
      exact ih q hq
    · simp only [hc] at hq
      rcases hty : lookupType reg cand.fst with _ | tty
      · simp only [hty] at hq
        simp at hq
      · simp only [hty] at hq
        rcases hmg : morphTypeGroups opts reg store rel parents rest with ⟨res2, log2⟩
        simp only [hmg] at hq
        cases res2 with
        | error e =>
          rcases List.mem_cons.mp hq with rfl | hq2
          · rfl
          · exact ih q (by rw [hmg]; exact hq2)
        | ok groups =>
          rcases List.mem_cons.mp hq with rfl | hq2
          · rfl
          · exact ih q (by rw [hmg]; exact hq2)

/-- Every query of a morphTo branch carries the handed column selection. -/
theorem loadMorphTo_cols (opts : FetchOptions) (reg : Registry) (store : DbStore)
    (parents : List DbRow) (rel : RelDecl) (q : QLog)
    (hq : q ∈ (loadMorphTo opts reg store parents rel).snd) : q.cols = opts.columns := by
  unfold loadMorphTo at hq
  rcases hg : morphTypeGroups opts reg store rel parents
      (dedup (parents.filterMap (fun p => getAttr p (resolvedTypeColumn rel)))) with ⟨res, lg⟩
  rw [hg] at hq
  cases res with
  | error e => exact morphTypeGroups_cols opts reg store rel parents _ q (by rw [hg]; exact hq)
  | ok groups => exact morphTypeGroups_cols opts reg store rel parents _ q (by rw [hg]; exact hq)

/-- Every query of one branch carries the handed column selection, given that
the nested recursion does. -/
theorem loadOneRelF_cols
    (recur : TypeInfo → List DbRow → List (List String) → Except EagerErr (List ARow) × List QLog)
    (opts : FetchOptions) (reg : Registry) (store : DbStore) (ty : TypeInfo)
    (parents : List DbRow) (h : String) (rests : List (List String))
    (hrec : ∀ (tty : TypeInfo) (children : List DbRow) (rests2 : List (List String)) (q : QLog),
      q ∈ (recur tty children rests2).snd → q.cols = opts.columns)
    (q : QLog) (hq : q ∈ (loadOneRelF recur opts reg store ty parents h rests).snd) :
    q.cols = opts.columns := by
  unfold loadOneRelF at hq
  rcases hr : lookupRel ty h with _ | rel
  · simp only [hr] at hq; simp at hq
  · simp only [hr] at hq
    rcases hmt : rel.kind == RelKind.morphTo with _ | _
    · simp only [hmt, Bool.false_eq_true, if_false] at hq
      rcases hty : lookupType reg rel.targetName with _ | tty
      · simp only [hty] at hq; simp at hq
      · simp only [hty] at hq
        rcases hc : recur tty (relQuery opts store rel ty tty parents).fst rests with ⟨res, lg⟩
        simp only [hc] at hq
        cases res with
        | error e =>
          rcases List.mem_cons.mp hq with rfl | hq2
          · rfl
          · exact hrec tty _ rests q (by rw [hc]; exact hq2)
        | ok childARs =>
          rcases List.mem_cons.mp hq with rfl | hq2
          · rfl
          · exact hrec tty _ rests q (by rw [hc]; exact hq2)
    · simp only [hmt, if_true] at hq
      exact loadMorphTo_cols opts reg store parents rel q hq

/-- Every query of a head list carries the per-branch column selection. -/
theorem loadHeadsF_cols
    (oneRel : String → Except EagerErr (List Slot) × List QLog) (C : Option (List String))
    (hone : ∀ (h : String) (q : QLog), q ∈ (oneRel h).snd → q.cols = C) :
    ∀ (heads : List String) (q : QLog), q ∈ (loadHeadsF oneRel heads).snd → q.cols = C := by
  intro heads
  induction heads with
  | nil => intro q hq; simp [loadHeadsF] at hq
  | cons hh hs ih =>
    intro q hq
    simp only [loadHeadsF] at hq
    rcases h1 : oneRel hh with ⟨r1, log1⟩
    simp only [h1] at hq
    cases r1 with
    | error e => exact hone hh q (by rw [h1]; exact hq)
    | ok slots =>
      rcases h2 : loadHeadsF oneRel hs with ⟨r2, log2⟩
      simp only [h2] at hq
      cases r2 with
      | error e =>
        rcases List.mem_append.mp hq with hq1 | hq2
        · exact hone hh q (by rw [h1]; exact hq1)
        · exact ih q (by rw [h2]; exact hq2)
      | ok rest =>
        rcases List.mem_append.mp hq with hq1 | hq2
        · exact hone hh q (by rw [h1]; exact hq1)
        · exact ih q (by rw [h2]; exact hq2)

/-- Every query the planner issues, at any nesting level, carries the column
selection of the options threaded into it. -/
theorem loadLevel_cols :
    ∀ (fuel : Nat) (opts : FetchOptions) (reg : Registry) (store : DbStore) (ty : TypeInfo)
      (parents : List DbRow) (paths : List (List String)) (q : QLog),
      q ∈ (loadLevel fuel opts reg store ty parents paths).snd → q.cols = opts.columns := by
  intro fuel
  induction fuel with
  | zero => intro opts reg store ty parents paths q hq; simp [loadLevel] at hq
  | succ k ih =>
    intro opts reg store ty parents paths q hq
    rw [loadLevel_succ_def] at hq
    by_cases hemp : parents.isEmpty = true
    · rw [if_pos hemp] at hq; simp at hq
    · rw [if_neg hemp] at hq
      rcases hlh : loadHeadsF
          (fun h =>
            loadOneRelF
              (fun tty children rests => loadLevel k opts reg store tty children rests)
              opts reg store ty parents h (restsFor paths h))
          (headsOf paths) with ⟨res, lg⟩
      simp only [hlh] at hq
      have hmem : q ∈ lg := by cases res <;> exact hq
      refine loadHeadsF_cols _ opts.columns ?_ (headsOf paths) q (by rw [hlh]; exact hmem)
      intro h2 q2 hq2
      exact loadOneRelF_cols _ opts reg store ty parents h2 (restsFor paths h2)
        (fun tty children rests2 q3 hq3 => ih opts reg store tty children rests2 q3 hq3)
        q2 hq2

/-- C9: when withRelated was supplied, fetch hands the eager loader the options
with the columns key removed and every other option intact, so the columns
option restricts only the top-level record query: every store query the eager
loader issues under those options selects its default (all) columns. -/
theorem claim9_columns_scope (o : FetchOptions) :
    (∀ o2, eagerCallOptions o = some o2 →
      o2.columns = none ∧ o2.require = o.require ∧ o2.withRelated = o.withRelated
        ∧ o2.transacting = o.transacting ∧ o2.lock = o.lock)
    ∧ (o.withRelated ≠ none → (eagerCallOptions o).isSome = true)
    ∧ (∀ (reg : Registry) (store : DbStore) (ty : TypeInfo) (parents : List DbRow)
         (names : List String) (q : QLog),
        q ∈ (eagerLoad (omitColumns o) reg store ty parents names).snd → q.cols = none) := by
  refine ⟨?_, ?_, ?_⟩
  · intro o2 h
    unfold eagerCallOptions at h
    rcases hw : o.withRelated with _ | l
    · rw [hw] at h; simp at h
    · rw [hw] at h
      simp only [Option.some.injEq] at h
      subst h
      exact ⟨rfl, rfl, hw, rfl, rfl⟩
  · intro hw
    unfold eagerCallOptions
    rcases hw2 : o.withRelated with _ | l
    · exact absurd hw2 hw
    · rfl
  · intro reg store ty parents names q hq
    unfold eagerLoad at hq
    by_cases hv : treeValid (pathsSize (pathsOf names)) reg ty (pathsOf names) = true
    · rw [if_pos hv] at hq
      have := loadLevel_cols (pathsSize (pathsOf names)) (omitColumns o) reg store ty parents
        (pathsOf names) q hq
      exact this
    · rw [if_neg hv] at hq
      simp at hq

/-- Witness for claim9_columns_scope: supplied withRelated invokes the eager
loader. -/
theorem claim9_witness :
    (eagerCallOptions { withRelated := some ["books"], columns := some ["id"] }).isSome = true :=
  (claim9_columns_scope { withRelated := some ["books"], columns := some ["id"] }).2.1 (by decide)
